import Mathlib

/-!
Verification development for the hikari-crescent command layer: a shallow
embedding of `crescent/internal/registry.py` and
`crescent/internal/handle_resp.py`, together with theorems about the
registry tree builder and differ, the interaction router, the argument
materializer and the hook/error execution pipeline.

Conventions of the embedding:
* machine integers (snowflake ids) are `Nat`;
* Python `None` becomes `Option.none`;
* Python truthiness is modelled explicitly where the source relies on it
  (`x or default` treats both `None` and `Snowflake(0)` as falsy, an empty
  string and an empty dict/list are falsy);
* exceptions become `Except PyError`;
* the `options` field of wire-level interaction options conflates Python
  `None` with the empty list, which the source treats identically
  (`if not option.options`, `if not options`), except that error kinds for
  `unwrap(None)` versus `[][0]` are conflated into one error value;
* asynchronous calls are modelled as pure outcomes: a hook, handler or
  autocomplete callback is represented by the outcome of awaiting it, and
  the pipeline records which collaborators it invoked in an event trace.
-/

namespace Crescent

/-- Python exception kinds that the translated code can raise. -/
inductive PyError where
  | keyError
  | valueError
  | indexError
  | assertionError
  | attributeError
  | userError (code : Nat)
deriving DecidableEq, Repr

/-- A wire-level option value (`option.value` in hikari). -/
inductive Val where
  | snowflake (id : Nat)
  | str (s : String)
  | int (i : Int)
  | boolean (b : Bool)
deriving DecidableEq, Repr

/-- A rich object held in a section of the resolved cross-reference table
(role, user, member, channel, attachment or message object). -/
structure RichObject where
  kind : String
  rid : Nat
deriving DecidableEq, Repr

/-- `hikari.CommandOption`: a descriptor-side option, possibly holding nested
options (sub-command and sub-command-group nesting). -/
inductive CommandOption where
  | mk (name : String) (description : String) (type : Nat)
      (options : Option (List CommandOption)) (is_required : Option Bool)

def CommandOption.name : CommandOption → String
  | .mk n _ _ _ _ => n

def CommandOption.description : CommandOption → String
  | .mk _ d _ _ _ => d

def CommandOption.type : CommandOption → Nat
  | .mk _ _ t _ _ => t

def CommandOption.options : CommandOption → Option (List CommandOption)
  | .mk _ _ _ o _ => o

def CommandOption.is_required : CommandOption → Option Bool
  | .mk _ _ _ _ r => r

mutual

/-- Structural equality of descriptor-side options (hikari's attrs-generated
`CommandOption.__eq__`, comparing every field, recursively on children). -/
def coBeq : CommandOption → CommandOption → Bool
  | .mk n1 d1 t1 o1 r1, .mk n2 d2 t2 o2 r2 =>
    n1 == n2 && d1 == d2 && t1 == t2 && coOptBeq o1 o2 && r1 == r2

def coOptBeq : Option (List CommandOption) → Option (List CommandOption) →
    Bool
  | none, none => true
  | some l1, some l2 => coListBeq l1 l2
  | _, _ => false

def coListBeq : List CommandOption → List CommandOption → Bool
  | [], [] => true
  | c :: cs, d :: ds => coBeq c d && coListBeq cs ds
  | _, _ => false

end

/-- Modelled from the spec: `AppCommand` is declared in `app_command.py`,
which is not under `src/`; its fields are the ones the spec's Command
Descriptor Model lists and that `registry.py` passes to its constructor:
type, name, description, guild scope, options, default permission and the
remote-assigned id.  `type` is the wire value of `AppCommandType`
(CHAT_INPUT = 1, USER = 2, MESSAGE = 3). -/
structure AppCommand where
  type : Nat
  name : String
  description : String
  guild_id : Option Nat
  options : Option (List CommandOption)
  default_permission : Option Bool
  id : Option Nat

/-- Modelled from the spec: `Unique` is declared in `app_command.py`, which
is not under `src/`; the spec defines it as the composite identity key
of name, type, guild scope, group and subgroup. -/
structure Unique where
  name : String
  type : Nat
  guild_id : Option Nat
  group : Option String
  sub_group : Option String
deriving DecidableEq, Repr

/-- Modelled from the spec: `AppCommandMeta` is declared in
`app_command.py`, which is not under `src/`; `registry.py` constructs it
from a group label, a subgroup label and an `AppCommand`. -/
structure AppCommandMeta where
  group : Option String
  sub_group : Option String
  app : AppCommand

/-- Modelled from the spec: `MetaStruct` is declared in `meta_struct.py`,
which is not under `src/`; it binds a handler callback (represented here
by an opaque numeric identity) to its `AppCommandMeta`. -/
structure MetaStruct where
  callback_id : Nat
  metadata : AppCommandMeta

/-- Python `x or d` on an optional snowflake: `None` and the falsy
`Snowflake(0)` both fall through to the default. -/
def orGuild : Option Nat → Option Nat → Option Nat
  | none, d => d
  | some 0, d => d
  | some (n + 1), _ => some (n + 1)

/-- Python truthiness of an optional string: `None` and `""` are falsy. -/
def truthyStr : Option String → Bool
  | none => false
  | some s => !(s == "")

/-- Extract the string out of an optional; only used under a `truthyStr`
guard, where the optional is known to hold a non-empty string. -/
def strVal : Option String → String
  | none => ""
  | some s => s

/-- The in-place defaulting `command.metadata.app.guild_id =
command.metadata.app.guild_id or self.bot.default_guild` performed by
`CommandHandler.register` and by each `build_commands` iteration. -/
def applyDefaultGuild (dg : Option Nat) (m : MetaStruct) : MetaStruct :=
  { m with
    metadata :=
      { m.metadata with
        app := { m.metadata.app with
                  guild_id := orGuild m.metadata.app.guild_id dg } } }

/-- Modelled from the spec: `command.metadata.unique`
(`Unique.from_meta_struct`) lives in `app_command.py`, not under `src/`;
the spec defines the key as name, type, guild scope, group and subgroup of
the handler. -/
def uniqueOfMeta (m : MetaStruct) : Unique :=
  { name := m.metadata.app.name
    type := m.metadata.app.type
    guild_id := m.metadata.app.guild_id
    group := m.metadata.group
    sub_group := m.metadata.sub_group }

/-- Insertion-ordered dictionary read, as Python `dict.__getitem__`
(wrapped in `Option` instead of raising `KeyError`). -/
def assocGet {α : Type} : List (Unique × α) → Unique → Option α
  | [], _ => none
  | e :: rest, k => if e.1 = k then some e.2 else assocGet rest k

/-- Insertion-ordered dictionary write, as Python `dict.__setitem__`:
an existing key keeps its position, a new key is appended. -/
def assocSet {α : Type} : List (Unique × α) → Unique → α → List (Unique × α)
  | [], k, v => [(k, v)]
  | e :: rest, k, v =>
    if e.1 = k then (k, v) :: rest else e :: assocSet rest k v

def containsKey {α : Type} (l : List (Unique × α)) (k : Unique) : Bool :=
  (assocGet l k).isSome

/-- `CommandHandler.register`: default the guild scope, insert at the
handler's `Unique` key, return the handler. -/
def register (dg : Option Nat) (registry : List (Unique × MetaStruct))
    (command : MetaStruct) : List (Unique × MetaStruct) × MetaStruct :=
  let command2 := applyDefaultGuild dg command
  (assocSet registry (uniqueOfMeta command2) command2, command2)

/-- The leaf sub-command appended under a sub-command-group in the
`sub_group` branch of `build_commands` (type `OptionType.SUB_COMMAND` = 1). -/
def subGroupLeaf (app : AppCommand) : CommandOption :=
  CommandOption.mk app.name app.description 1 app.options none

/-- The sub-command appended directly under the synthesized top-level
command in the `group` branch of `build_commands`
(note: the source passes `command.metadata.app.type` as the option type). -/
def groupLeaf (app : AppCommand) : CommandOption :=
  CommandOption.mk app.name app.description app.type app.options none

/-- The for-else of the `sub_group` branch of `build_commands`: look for an
existing child matching the new sub-command-group on name, description and
type; if found, append the leaf to that child's option list in place,
otherwise append a fresh sub-command-group (whose option list already holds
the leaf, matching the source's mutation order). -/
def appendLeafToGroup (cs : List CommandOption) (sg : String)
    (leaf : CommandOption) : Except PyError (List CommandOption) :=
  match cs with
  | [] => .ok [CommandOption.mk sg "HIDDEN" 2 (some [leaf]) none]
  | c :: rest =>
    if c.name == sg && c.description == "HIDDEN" && c.type == 2 then
      match c.options with
      | none => .error .attributeError
      | some os =>
        .ok (CommandOption.mk c.name c.description c.type
              (some (os ++ [leaf])) c.is_required :: rest)
    else
      (appendLeafToGroup rest sg leaf).map (fun l => c :: l)

def withOptions (a : AppCommand) (o : Option (List CommandOption)) :
    AppCommand :=
  { a with options := o }

/-- One iteration of the `build_commands` loop body, for a handler whose
guild scope has already been defaulted. -/
def buildStep (built : List (Unique × AppCommand)) (m : MetaStruct) :
    Except PyError (List (Unique × AppCommand)) :=
  let app := m.metadata.app
  if truthyStr m.metadata.sub_group then
    match m.metadata.group with
    | none => .error .valueError
    | some g =>
      let key : Unique :=
        { name := g, type := app.type, guild_id := app.guild_id
          group := none, sub_group := none }
      let built1 :=
        if containsKey built key then built
        else
          assocSet built key
            (AppCommand.mk 1 g "HIDDEN" app.guild_id (some [])
              app.default_permission none)
      match assocGet built1 key with
      | none => .error .keyError
      | some parent =>
        match parent.options with
        | none => .error .valueError
        | some children =>
          match appendLeafToGroup children (strVal m.metadata.sub_group)
              (subGroupLeaf app) with
          | .error e => .error e
          | .ok children2 =>
            .ok (assocSet built1 key (withOptions parent (some children2)))
  else if truthyStr m.metadata.group then
    let g := strVal m.metadata.group
    let key : Unique :=
      { name := g, type := app.type, guild_id := app.guild_id
        group := none, sub_group := none }
    let built1 :=
      if containsKey built key then built
      else
        assocSet built key
          (AppCommand.mk app.type g "HIDDEN" app.guild_id (some [])
            app.default_permission none)
    match assocGet built1 key with
    | none => .error .keyError
    | some parent =>
      match parent.options with
      | none => .error .valueError
      | some children =>
        .ok (assocSet built1 key
              (withOptions parent (some (children ++ [groupLeaf app]))))
  else
    .ok (assocSet built (uniqueOfMeta m) app)

/-- The `build_commands` loop: iterate the registry in insertion order,
defaulting each handler's guild scope in place before processing it.
Returns the mutated registry together with the accumulated dictionary. -/
def buildGo (dg : Option Nat) :
    List MetaStruct → List (Unique × AppCommand) →
    Except PyError (List MetaStruct × List (Unique × AppCommand))
  | [], built => .ok ([], built)
  | m :: rest, built =>
    let m2 := applyDefaultGuild dg m
    match buildStep built m2 with
    | .error e => .error e
    | .ok built2 =>
      match buildGo dg rest built2 with
      | .error e => .error e
      | .ok (ms, b) => .ok (m2 :: ms, b)

/-- `CommandHandler.build_commands`: reduce the registered handlers to the
top-level descriptors, in first-insertion order of the synthesized keys.
The first component of the result is the registry after the in-place
guild-scope defaulting side effect. -/
def build_commands (dg : Option Nat) (registry : List MetaStruct) :
    Except PyError (List MetaStruct × List AppCommand) :=
  match buildGo dg registry [] with
  | .error e => .error e
  | .ok (ms, b) => .ok (ms, b.map (fun e => e.2))

/-- Modelled from the spec: `AppCommand.is_same_command` lives in
`app_command.py`, which is not under `src/`; the spec's glossary defines
the loose identity match as equality of the (name, type, guild scope,
group, subgroup) tuple, and top-level descriptors carry no group or
subgroup, so the comparison reduces to name, type and guild scope. -/
def is_same_command (a b : AppCommand) : Bool :=
  a.name == b.name && a.type == b.type && a.guild_id == b.guild_id

/-- Modelled from the spec: `AppCommand.__eq__` lives in `app_command.py`,
which is not under `src/`; the spec describes the posting test as full
structural equality, intended so that an unchanged command is never
re-posted, which forces the remote-assigned `id` to be excluded from the
comparison (local descriptors never carry an id). -/
def appCommandEq (a b : AppCommand) : Bool :=
  a.type == b.type && a.name == b.name && a.description == b.description &&
  a.guild_id == b.guild_id && coOptBeq a.options b.options &&
  a.default_permission == b.default_permission

/-- `to_delete` of `CommandHandler.init`: remote commands with no local
loose-identity match; each element corresponds to one delete call. -/
def to_delete (discord_commands local_commands : List AppCommand) :
    List AppCommand :=
  discord_commands.filter
    (fun dc => !(local_commands.any (fun lc => is_same_command dc lc)))

/-- `to_post` of `CommandHandler.init`: local commands not structurally
present remotely (`lc not in discord_commands`); each element corresponds
to one create call. -/
def to_post (discord_commands local_commands : List AppCommand) :
    List AppCommand :=
  local_commands.filter
    (fun lc => !(discord_commands.any (fun dc => appCommandEq lc dc)))

/-- A wire-level interaction option (`CommandInteractionOption` /
`AutocompleteInteractionOption`): name, wire type, optional value, nested
options and the is-focused flag.  A Python `None` option list is conflated
with the empty list (the source only ever tests its truthiness or fails
fatally on both). -/
inductive IOpt where
  | mk (name : String) (type : Nat) (value : Option Val)
      (options : List IOpt) (is_focused : Bool)

def IOpt.name : IOpt → String
  | .mk n _ _ _ _ => n

def IOpt.type : IOpt → Nat
  | .mk _ t _ _ _ => t

def IOpt.value : IOpt → Option Val
  | .mk _ _ v _ _ => v

def IOpt.options : IOpt → List IOpt
  | .mk _ _ _ o _ => o

def IOpt.is_focused : IOpt → Bool
  | .mk _ _ _ _ f => f

/-- Depth-first pre-order flattening of a nested option tree; the reference
order against which the focused-option search is specified. -/
def flattenOpts : List IOpt → List IOpt
  | [] => []
  | IOpt.mk n t v os f :: rest =>
    IOpt.mk n t v os f :: (flattenOpts os ++ flattenOpts rest)

/-- `_get_option_recursive`: return the first focused option in
depth-first order, recursing into any option that carries children. -/
def _get_option_recursive : List IOpt → Option IOpt
  | [] => none
  | IOpt.mk n t v os f :: rest =>
    if f then some (IOpt.mk n t v os f)
    else if os.isEmpty then _get_option_recursive rest
    else
      match _get_option_recursive os with
      | some found => some found
      | none => _get_option_recursive rest

/-- The per-interaction resolved cross-reference table
(`hikari.ResolvedOptionData`): one id-keyed section per resolvable type,
each modelled as an insertion-ordered association list. -/
structure ResolvedOptionData where
  roles : List (Nat × RichObject)
  users : List (Nat × RichObject)
  members : List (Nat × RichObject)
  channels : List (Nat × RichObject)
  attachments : List (Nat × RichObject)
  messages : List (Nat × RichObject)
deriving DecidableEq, Repr

/-- Python dict lookup on a resolved section. -/
def lookupNat : List (Nat × RichObject) → Nat → Option RichObject
  | [], _ => none
  | e :: rest, k => if e.1 = k then some e.2 else lookupNat rest k

/-- `getattr(interaction.resolved, attr, None)`: attribute access by name
on a possibly-absent resolved table. -/
def getSection (r : Option ResolvedOptionData) (s : String) :
    Option (List (Nat × RichObject)) :=
  match r with
  | none => none
  | some rd =>
    if s = "roles" then some rd.roles
    else if s = "users" then some rd.users
    else if s = "members" then some rd.members
    else if s = "channels" then some rd.channels
    else if s = "attachments" then some rd.attachments
    else if s = "messages" then some rd.messages
    else none

/-- `_VALUE_TYPE_LINK`: the ordered candidate resolved-table sections for
each reference-typed option (`OptionType`: USER = 6, CHANNEL = 7, ROLE = 8,
ATTACHMENT = 11). -/
def _VALUE_TYPE_LINK (t : Nat) : Option (List String) :=
  if t = 8 then some ["roles"]
  else if t = 6 then some ["members", "users"]
  else if t = 7 then some ["channels"]
  else if t = 11 then some ["attachments"]
  else none

/-- The walrus loop of `_get_resolved`: first candidate section that is
truthy, i.e. present and non-empty. -/
def firstTruthy (r : Option ResolvedOptionData) :
    List String → Option (List (Nat × RichObject))
  | [] => none
  | s :: rest =>
    match getSection r s with
    | some sec => if sec.isEmpty then firstTruthy r rest else some sec
    | none => firstTruthy r rest

/-- `_get_resolved`: the first non-empty candidate section for the option
type, or `none` for non-reference types or when every candidate section is
empty or absent. -/
def _get_resolved (resolved : Option ResolvedOptionData) (t : Nat) :
    Option (List (Nat × RichObject)) :=
  match _VALUE_TYPE_LINK t with
  | none => none
  | some attrs => firstTruthy resolved attrs

/-- The value a wire option materializes to: the raw wire value, a rich
resolved object, or the polymorphic mentionable wrapper. -/
inductive ExtractedValue where
  | raw (v : Val)
  | resolvedObj (r : RichObject)
  | mentionable
deriving DecidableEq, Repr

/-- `_extract_value`: raw pass-through for autocomplete, the mentionable
wrapper for `OptionType.MENTIONABLE` (9), otherwise resolved-table
substitution via `_get_resolved` followed by a dict index
(`resolved[option.value]`, raising `KeyError` on a missing id). -/
def _extract_value (o : IOpt) (isAutocomplete : Bool)
    (resolved : Option ResolvedOptionData) : Except PyError ExtractedValue :=
  match o.value with
  | none => .error .assertionError
  | some v =>
    if isAutocomplete then .ok (.raw v)
    else if o.type = 9 then .ok .mentionable
    else
      match _get_resolved resolved o.type with
      | none => .ok (.raw v)
      | some sec =>
        match v with
        | .snowflake id =>
          match lookupNat sec id with
          | some rich => .ok (.resolvedObj rich)
          | none => .error .keyError
        | _ => .error .keyError

/-- `_options_to_kwargs`: materialize the working option list into the
name-to-value mapping of call arguments, in order; the first extraction
error propagates. -/
def _options_to_kwargs (isAutocomplete : Bool)
    (resolved : Option ResolvedOptionData) :
    List IOpt → Except PyError (List (String × ExtractedValue))
  | [] => .ok []
  | o :: rest =>
    match _extract_value o isAutocomplete resolved with
    | .error e => .error e
    | .ok v =>
      match _options_to_kwargs isAutocomplete resolved rest with
      | .error e => .error e
      | .ok l => .ok ((o.name, v) :: l)

/-- `_resolved_data_to_kwargs`: for user-target and message-target commands
there is no option list; extract the single resolved object, messages
before members before users, failing on a malformed payload. -/
def _resolved_data_to_kwargs (resolved : Option ResolvedOptionData) :
    Except PyError (List (String × ExtractedValue)) :=
  match resolved with
  | none => .error .valueError
  | some r =>
    match r.messages with
    | e :: _ => .ok [("message", .resolvedObj e.2)]
    | [] =>
      match r.members with
      | e :: _ => .ok [("user", .resolvedObj e.2)]
      | [] =>
        match r.users with
        | e :: _ => .ok [("user", .resolvedObj e.2)]
        | [] => .error .attributeError

/-- The router's output (`CrescentCommandData`): logical command name,
group, subgroup and the working option list. -/
structure CrescentCommandData where
  command_name : String
  group : Option String
  sub_group : Option String
  options : List IOpt

/-- An inbound command or autocomplete interaction, restricted to the
fields `handle_resp` reads.  `command_type` is the wire `CommandType`
(SLASH = 1, USER = 2, MESSAGE = 3); `itype` is the `InteractionType`
(APPLICATION_COMMAND = 2, AUTOCOMPLETE = 4). -/
structure InteractionModel where
  command_name : String
  command_type : Nat
  itype : Nat
  guild_id : Option Nat
  options : List IOpt
  resolved : Option ResolvedOptionData

/-- `_get_crescent_command_data`: recover the logical command path from the
first top-level option (`OptionType.SUB_COMMAND` = 1 nests one level,
`OptionType.SUB_COMMAND_GROUP` = 2 nests two); an empty sub-command-group
is a fatal contract violation (`unwrap`/index failure in the source). -/
def _get_crescent_command_data (i : InteractionModel) :
    Except PyError CrescentCommandData :=
  match i.options with
  | [] =>
    .ok { command_name := i.command_name, group := none, sub_group := none
          options := i.options }
  | opt :: _ =>
    if opt.type = 1 then
      .ok { command_name := opt.name, group := some i.command_name
            sub_group := none, options := opt.options }
    else if opt.type = 2 then
      match opt.options with
      | [] => .error .valueError
      | sub :: _ =>
        .ok { command_name := sub.name, group := some i.command_name
              sub_group := some opt.name, options := sub.options }
    else
      .ok { command_name := i.command_name, group := none, sub_group := none
            options := i.options }

/-- The result object a pre- or post-hook can return
(`crescent.HookResult`), carrying the exit flag. -/
structure HookResult where
  exit : Bool
deriving DecidableEq, Repr

/-- The outcome of awaiting one hook: a returned optional `HookResult`, or
a raised exception. -/
inductive HookOutcome where
  | ret (r : Option HookResult)
  | raise (e : PyError)
deriving DecidableEq, Repr

/-- A registered hook: an opaque identity plus the outcome awaiting it
produces on this interaction. -/
structure Hook where
  hid : Nat
  outcome : HookOutcome
deriving DecidableEq, Repr

/-- The outcome of awaiting the command handler callback. -/
inductive CallOutcome where
  | ok
  | raise (e : PyError)
deriving DecidableEq, Repr

/-- The outcome of awaiting an autocomplete callback: a choice list, or a
raised exception. -/
inductive AcOutcome where
  | ok (choices : List (String × Val))
  | raise (e : PyError)
deriving DecidableEq, Repr

/-- The execution-relevant metadata of a registered command
(`AppCommandMeta` as `handle_resp` consumes it): pre-hooks, post-hooks,
the handler callback and the per-option-name autocomplete callbacks. -/
structure ExecMeta where
  hooks : List Hook
  after_hooks : List Hook
  callback : CallOutcome
  autocomplete : List (String × AcOutcome)
deriving DecidableEq, Repr

/-- Observable effects of handling one interaction, in order. -/
inductive Event where
  | preHookRun (hid : Nat)
  | afterHookRun (hid : Nat)
  | handlerRun
  | errorChainRun
  | terminalCallbackRun (handled : Bool)
  | acErrorChainRun
  | acTerminalCallbackRun (handled : Bool)
  | autocompleteRun (optionName : String)
  | futureCompleted
  | responseCreated
  | warnUnknown
deriving DecidableEq, Repr

/-- `if hook_res and hook_res.exit`: a `None` result is falsy, a
`HookResult` object is truthy. -/
def hookSignalsExit : Option HookResult → Bool
  | none => false
  | some hr => hr.exit

/-- `_handle_hooks`: run the hooks in order; stop with `true` as soon as
one signals exit; an exception from a hook propagates (there is no catch
in this function). -/
def _handle_hooks (mk : Nat → Event) :
    List Hook → List Event × Except PyError Bool
  | [] => ([], .ok false)
  | h :: rest =>
    match h.outcome with
    | .raise e => ([mk h.hid], .error e)
    | .ret r =>
      if hookSignalsExit r then ([mk h.hid], .ok true)
      else
        let res := _handle_hooks mk rest
        (mk h.hid :: res.1, res.2)

/-- `_handle_slash_resp`: run the pre-hooks (outside any try block), stop
silently on an exit signal, then run the handler and the post-hooks inside
a catch-all that routes any exception to the command error-handler chain
and then the terminal error callback. -/
def _handle_slash_resp (m : ExecMeta) (chainHandles : Bool) :
    List Event × Except PyError Unit :=
  let pre := _handle_hooks Event.preHookRun m.hooks
  match pre.2 with
  | .error e => (pre.1, .error e)
  | .ok true => (pre.1, .ok ())
  | .ok false =>
    let body : List Event × Except PyError Unit :=
      match m.callback with
      | .raise e => ([Event.handlerRun], .error e)
      | .ok =>
        let post := _handle_hooks Event.afterHookRun m.after_hooks
        match post.2 with
        | .error e => (Event.handlerRun :: post.1, .error e)
        | .ok _ => (Event.handlerRun :: post.1, .ok ())
    match body.2 with
    | .error _ =>
      (pre.1 ++ body.1 ++
        [Event.errorChainRun, Event.terminalCallbackRun chainHandles],
       .ok ())
    | .ok _ => (pre.1 ++ body.1, .ok ())

/-- Python dict lookup in the autocomplete-callback mapping. -/
def lookupStr : List (String × AcOutcome) → String → Option AcOutcome
  | [], _ => none
  | e :: rest, k => if e.1 = k then some e.2 else lookupStr rest k

/-- `_handle_autocomplete_resp`: nothing to do without registered
autocomplete callbacks or without a focused option; the callback lookup by
option name happens outside the try block (a missing name raises
`KeyError`); the callback invocation and the response delivery are inside
a catch-all routing to the autocomplete error chain and its terminal
callback. -/
def _handle_autocomplete_resp (m : ExecMeta) (topOptions : List IOpt)
    (chainHandles : Bool) (hasUnsetFuture : Bool) :
    List Event × Except PyError Unit :=
  if m.autocomplete.isEmpty then ([], .ok ())
  else
    match _get_option_recursive topOptions with
    | none => ([], .ok ())
    | some opt =>
      match lookupStr m.autocomplete opt.name with
      | none => ([], .error .keyError)
      | some ac =>
        match ac with
        | .raise _ =>
          ([Event.autocompleteRun opt.name, Event.acErrorChainRun,
            Event.acTerminalCallbackRun chainHandles], .ok ())
        | .ok _ =>
          ([Event.autocompleteRun opt.name,
            if hasUnsetFuture then Event.futureCompleted
            else Event.responseCreated], .ok ())

/-- The client state `handle_resp` reads: the command registry, the
unknown-interaction flag, and whether each error-handler chain claims the
errors of this interaction. -/
structure ClientModel where
  registry : List (Unique × ExecMeta)
  allow_unknown_interactions : Bool
  commandChainHandles : Bool
  autocompleteChainHandles : Bool

/-- `_get_command`: guild-scoped registry lookup first, then the
global-scope variant of the same key, else a miss. -/
def _get_command (registry : List (Unique × ExecMeta)) (name : String)
    (type : Nat) (guild_id : Option Nat) (group sub_group : Option String) :
    Option ExecMeta :=
  match assocGet registry
      { name := name, type := type, guild_id := guild_id, group := group
        sub_group := sub_group } with
  | some c => some c
  | none =>
    assocGet registry
      { name := name, type := type, guild_id := none, group := group
        sub_group := sub_group }

/-- The materialized call arguments built by
`_context_from_interaction_resp`: wire options for slash commands, the
single resolved object for user- and message-target commands. -/
def contextOptions (i : InteractionModel) (d : CrescentCommandData) :
    Except PyError (List (String × ExtractedValue)) :=
  if i.command_type = 1 then
    _options_to_kwargs (i.itype = 4) i.resolved d.options
  else
    _resolved_data_to_kwargs i.resolved

/-- `handle_resp`: route one inbound interaction end to end — resolve the
command path, look the handler up (warn-or-ignore on a miss), build the
context (materializing arguments), then dispatch to the autocomplete or
slash pipeline. -/
def handle_resp (c : ClientModel) (i : InteractionModel)
    (hasUnsetFuture : Bool) : List Event × Except PyError Unit :=
  match _get_crescent_command_data i with
  | .error e => ([], .error e)
  | .ok d =>
    match _get_command c.registry d.command_name i.command_type i.guild_id
        d.group d.sub_group with
    | none =>
      if c.allow_unknown_interactions then ([], .ok ())
      else ([Event.warnUnknown], .ok ())
    | some cmd =>
      match contextOptions i d with
      | .error e => ([], .error e)
      | .ok _ =>
        if i.itype = 4 then
          _handle_autocomplete_resp cmd i.options c.autocompleteChainHandles
            hasUnsetFuture
        else
          _handle_slash_resp cmd c.commandChainHandles

/-! ### Specification-side predicates -/

/-- A hook that returns normally without signalling exit. -/
def isRetNoExitB (h : Hook) : Bool :=
  match h.outcome with
  | .ret r => !hookSignalsExit r
  | .raise _ => false

/-- A hook that returns a result signalling exit. -/
def signalsExitB (h : Hook) : Bool :=
  match h.outcome with
  | .ret r => hookSignalsExit r
  | .raise _ => false

/-- A hook that raises. -/
def isRaiseB (h : Hook) : Bool :=
  match h.outcome with
  | .ret _ => false
  | .raise _ => true

/-- A registered handler carrying a group, a truthy subgroup and the
chat-input command type — the population claim C4 quantifies over. -/
def subGroupedB (m : MetaStruct) : Bool :=
  m.metadata.group.isSome && truthyStr m.metadata.sub_group &&
    (m.metadata.app.type == 1)

/-- The invariant of every child option of a synthesized sub-command-group
level: wire type sub-command-group, placeholder description, a present
option list. -/
def scgChildInv (c : CommandOption) : Prop :=
  c.type = 2 ∧ c.description = "HIDDEN" ∧ ∃ os, c.options = some os

/-- The invariant of one entry of the `built_commands` dictionary during a
run over handlers that all carry group and subgroup. -/
def entryInv (e : Unique × AppCommand) : Prop :=
  e.1.type = 1 ∧ e.1.group = none ∧ e.1.sub_group = none ∧
  e.2.name = e.1.name ∧ e.2.guild_id = e.1.guild_id ∧
  ∃ cs, e.2.options = some cs ∧ (∀ c ∈ cs, scgChildInv c) ∧
    (cs.map CommandOption.name).Nodup

/-- The invariant of the whole `built_commands` dictionary. -/
def builtInv (built : List (Unique × AppCommand)) : Prop :=
  (built.map Prod.fst).Nodup ∧ ∀ e ∈ built, entryInv e

/-- Some entry of the dictionary keyed by (group, guild) carries a child
option named `s`. -/
def scgMem (built : List (Unique × AppCommand)) (g : String)
    (gu : Option Nat) (s : String) : Prop :=
  ∃ e ∈ built, e.1.name = g ∧ e.1.guild_id = gu ∧
    ∃ cs, e.2.options = some cs ∧ s ∈ cs.map CommandOption.name

/-! ### Concrete fixtures for witnesses and counterexamples -/

/-- Fixture builder: a chat-input handler with the given callback identity,
group, subgroup, name and guild. -/
def mkHandler (cb : Nat) (g sg : Option String) (nm : String)
    (gu : Option Nat) : MetaStruct :=
  MetaStruct.mk cb (AppCommandMeta.mk g sg
    (AppCommand.mk 1 nm "d" gu none none none))

/-- Fixture: a resolved table where user 1 resolves as a member and user 2
only as a user, so the `members` section is non-empty but lacks id 2. -/
def resolvedMixed : ResolvedOptionData :=
  ResolvedOptionData.mk [] [(2, RichObject.mk "user" 2)]
    [(1, RichObject.mk "member" 1)] [] [] []

/-- Fixture: a user-typed option referencing id 2. -/
def userOptTwo : IOpt := IOpt.mk "target" 6 (some (.snowflake 2)) [] false

/-- Fixture: a resolved table holding exactly role 7. -/
def resolvedRoles : ResolvedOptionData :=
  ResolvedOptionData.mk [(7, RichObject.mk "role" 7)] [] [] [] [] []

/-- Fixture: a role-typed option referencing id 7. -/
def roleOptSeven : IOpt := IOpt.mk "r" 8 (some (.snowflake 7)) [] false

/-- Fixture: a command whose single pre-hook raises. -/
def preHookRaiseMeta : ExecMeta :=
  ExecMeta.mk [Hook.mk 0 (.raise (.userError 7))] [] .ok []

/-- Fixture: a client whose registry holds `preHookRaiseMeta` under the
global key for slash command `boom`. -/
def preHookRaiseClient : ClientModel :=
  ClientModel.mk [(Unique.mk "boom" 1 none none none, preHookRaiseMeta)]
    false true true

/-- Fixture: a slash interaction invoking `boom` with no options. -/
def boomInteraction : InteractionModel :=
  InteractionModel.mk "boom" 1 2 none [] none

/-- Fixture: a command whose handler raises, with no hooks. -/
def handlerRaiseMeta : ExecMeta :=
  ExecMeta.mk [] [] (.raise (.userError 3)) []

/-- Fixture: registry population for the subgroup-tree witness — two
handlers share (group `g`, subgroup `s`), a third uses subgroup `t`. -/
def w4reg : List MetaStruct :=
  [mkHandler 0 (some "g") (some "s") "a" none,
   mkHandler 1 (some "g") (some "s") "b" none,
   mkHandler 2 (some "g") (some "t") "c" none]

/-- Fixture: two handlers sharing group `soc` with no subgroup. -/
def w5a : MetaStruct := mkHandler 0 (some "soc") none "greet" none

/-- Fixture: second handler of the `soc` group. -/
def w5b : MetaStruct := mkHandler 1 (some "soc") none "bye" none

/-- Fixture: two leaf options under a nested sub-command. -/
def scgLeafX : IOpt := IOpt.mk "x" 3 (some (.str "a")) [] false

/-- Fixture: second leaf option. -/
def scgLeafY : IOpt := IOpt.mk "y" 4 (some (.int 2)) [] false

/-- Fixture: the nested sub-command holding the two leaves. -/
def scgSub : IOpt := IOpt.mk "leafcmd" 1 none [scgLeafX, scgLeafY] false

/-- Fixture: the top-level sub-command-group option. -/
def scgTop : IOpt := IOpt.mk "grp" 2 none [scgSub] false

/-- Fixture: an interaction whose first option is a sub-command-group
holding one sub-command with two leaf options. -/
def scgInteraction : InteractionModel :=
  InteractionModel.mk "top" 1 2 none [scgTop] none

/-- Fixture: a three-level nested option tree whose only focused option
sits at the deepest level. -/
def deepTree : List IOpt :=
  [IOpt.mk "a" 2 none
    [IOpt.mk "b" 1 none
      [IOpt.mk "c" 3 (some (.str "q")) [] true] false] false]

/-- Fixture: the same tree with no focused option anywhere. -/
def noFocusTree : List IOpt :=
  [IOpt.mk "a" 2 none
    [IOpt.mk "b" 1 none
      [IOpt.mk "c" 3 (some (.str "q")) [] false] false] false]

/-- Fixture: a client with an empty registry, warnings enabled. -/
def emptyClient : ClientModel := ClientModel.mk [] false true true

/-- Fixture: pre-hook list where hook 0 passes, hook 1 signals exit and
hook 2 would raise if it were ever reached. -/
def exitHooksMeta : ExecMeta :=
  ExecMeta.mk
    [Hook.mk 0 (.ret none),
     Hook.mk 1 (.ret (some (HookResult.mk true))),
     Hook.mk 2 (.raise (.userError 9))]
    [Hook.mk 3 (.ret none)] (.raise (.userError 8)) []

/-- Fixture: a handler that explicitly targets the falsy guild id 0. -/
def zeroGuildMeta : MetaStruct := mkHandler 0 none none "z" (some 0)

/-! ### Helper lemmas -/

theorem handle_hooks_error (mk : Nat → Event) (hooks : List Hook)
    (e : PyError) (h : (_handle_hooks mk hooks).2 = .error e) :
    ∃ hk ∈ hooks, hk.outcome = .raise e := by
  induction hooks with
  | nil => simp [_handle_hooks] at h
  | cons hk rest ih =>
    cases ho : hk.outcome with
    | raise e0 =>
      simp [_handle_hooks, ho] at h
      exact ⟨hk, by simp, by rw [ho, h]⟩
    | ret r =>
      by_cases hex : hookSignalsExit r = true
      · simp [_handle_hooks, ho, hex] at h
      · simp [_handle_hooks, ho, hex] at h
        obtain ⟨hk2, hmem, hout⟩ := ih h
        exact ⟨hk2, by simp [hmem], hout⟩

theorem handle_hooks_exit (mk : Nat → Event) (pre : List Hook) (h : Hook)
    (rest : List Hook) (hpre : ∀ x ∈ pre, isRetNoExitB x = true)
    (hx : signalsExitB h = true) :
    _handle_hooks mk (pre ++ h :: rest) =
      ((pre ++ [h]).map (fun x => mk x.hid), .ok true) := by
  induction pre with
  | nil =>
    cases ho : h.outcome with
    | raise e => simp [signalsExitB, ho] at hx
    | ret r =>
      have hr : hookSignalsExit r = true := by simpa [signalsExitB, ho] using hx
      simp [_handle_hooks, ho, hr]
  | cons p ps ih =>
    have hp := hpre p (by simp)
    cases ho : p.outcome with
    | raise e => simp [isRetNoExitB, ho] at hp
    | ret r =>
      have hr : hookSignalsExit r = false := by
        simpa [isRetNoExitB, ho] using hp
      have := ih (fun x hx2 => hpre x (by simp [hx2]))
      simp [_handle_hooks, ho, hr, this]

/-! ### C3 — synchronize diff -/

/-- C3: for every set of remote (`discord_commands`) and locally built
commands, `to_delete` holds exactly the remote commands with no
loose-identity (`is_same_command`) local match, `to_post` holds exactly
the local commands structurally equal (`appCommandEq`) to no remote one;
hence synchronization never re-creates a structurally identical command
and never deletes a loosely matched one. -/
theorem C3_sync_diff (discord_commands local_commands : List AppCommand) :
    (∀ dc, dc ∈ to_delete discord_commands local_commands ↔
      dc ∈ discord_commands ∧
        ∀ lc ∈ local_commands, is_same_command dc lc = false) ∧
    (∀ lc, lc ∈ to_post discord_commands local_commands ↔
      lc ∈ local_commands ∧
        ∀ dc ∈ discord_commands, appCommandEq lc dc = false) ∧
    (∀ lc dc, lc ∈ to_post discord_commands local_commands →
      dc ∈ discord_commands → appCommandEq lc dc = false) ∧
    (∀ dc lc, dc ∈ to_delete discord_commands local_commands →
      lc ∈ local_commands → is_same_command dc lc = false) := by
  have h1 : ∀ dc, dc ∈ to_delete discord_commands local_commands ↔
      dc ∈ discord_commands ∧
        ∀ lc ∈ local_commands, is_same_command dc lc = false := by
    intro dc
    simp [to_delete, List.mem_filter, List.any_eq_false]
  have h2 : ∀ lc, lc ∈ to_post discord_commands local_commands ↔
      lc ∈ local_commands ∧
        ∀ dc ∈ discord_commands, appCommandEq lc dc = false := by
    intro lc
    simp [to_post, List.mem_filter, List.any_eq_false]
  refine ⟨h1, h2, ?_, ?_⟩
  · intro lc dc hpost hdc
    exact ((h2 lc).mp hpost).2 dc hdc
  · intro dc lc hdel hlc
    exact ((h1 dc).mp hdel).2 lc hlc

/-! ### C6 — command-path resolution -/

/-- C6: when an interaction's first top-level option is typed
sub-command-group (2), `_get_crescent_command_data` returns the nested
sub-command's name as the command name, the interaction's own name as
group, the option's name as subgroup and the nested sub-command's options
as the working option list; when the first option is neither sub-command
(1) nor sub-command-group, or the option list is empty, it returns the
interaction's own name and options with no group or subgroup. -/
theorem C6_router (i : InteractionModel) :
    (∀ opt rest sub rest2, i.options = opt :: rest → opt.type = 2 →
      opt.options = sub :: rest2 →
      _get_crescent_command_data i =
        .ok { command_name := sub.name, group := some i.command_name
              sub_group := some opt.name, options := sub.options }) ∧
    ((i.options = [] ∨
      ∀ opt rest, i.options = opt :: rest → opt.type ≠ 1 ∧ opt.type ≠ 2) →
      _get_crescent_command_data i =
        .ok { command_name := i.command_name, group := none
              sub_group := none, options := i.options }) := by
  constructor
  · intro opt rest sub rest2 hopts htype hsub
    simp [_get_crescent_command_data, hopts, htype, hsub]
  · intro hcase
    cases hcase with
    | inl hnil => simp [_get_crescent_command_data, hnil]
    | inr hleaf =>
      cases hopts : i.options with
      | nil => simp [_get_crescent_command_data, hopts]
      | cons opt rest =>
        have := hleaf opt rest hopts
        simp [_get_crescent_command_data, hopts, this.1, this.2]

/-! ### C7 — focused-option search -/

theorem goc_eq_find (opts : List IOpt) :
    _get_option_recursive opts =
      (flattenOpts opts).find? IOpt.is_focused := by
  induction opts using _get_option_recursive.induct with
  | case1 => simp [_get_option_recursive, flattenOpts]
  | case2 n t v os rest =>
    simp [_get_option_recursive, flattenOpts, List.find?_cons,
      IOpt.is_focused]
  | case3 n t v os f rest hf hos ih =>
    have hosnil : os = [] := by simpa using hos
    simp [_get_option_recursive, flattenOpts, List.find?_cons,
      IOpt.is_focused, hf, hosnil, ih]
  | case4 n t v os f rest hf hos found hfound ih =>
    have hfos : (flattenOpts os).find? IOpt.is_focused = some found := by
      rw [← ih]; exact hfound
    simp [_get_option_recursive, flattenOpts, List.find?_cons,
      List.find?_append, IOpt.is_focused, hf, hos, hfound, hfos]
  | case5 n t v os f rest hf hos hnone ihos ihrest =>
    have hfos : (flattenOpts os).find? IOpt.is_focused = none := by
      rw [← ihos]; exact hnone
    simp [_get_option_recursive, flattenOpts, List.find?_cons,
      List.find?_append, IOpt.is_focused, hf, hos, hnone, hfos, ihrest]

/-- C7: `_get_option_recursive` returns the first focused option of the
nested tree in depth-first pre-order; with no focused option anywhere it
returns none, in which case the autocomplete pipeline invokes no callback
and produces no response (empty event trace, normal return). -/
theorem C7_focus (opts : List IOpt) :
    _get_option_recursive opts =
      (flattenOpts opts).find? IOpt.is_focused ∧
    ((∀ o ∈ flattenOpts opts, o.is_focused = false) →
      _get_option_recursive opts = none) ∧
    (_get_option_recursive opts = none →
      ∀ (m : ExecMeta) (ch fut : Bool),
        _handle_autocomplete_resp m opts ch fut = ([], .ok ())) := by
  refine ⟨goc_eq_find opts, ?_, ?_⟩
  · intro hall
    rw [goc_eq_find opts]
    exact List.find?_eq_none.mpr (fun x hx => by simp [hall x hx])
  · intro hnone m ch fut
    by_cases hemp : m.autocomplete.isEmpty
    · simp [_handle_autocomplete_resp, hemp]
    · simp [_handle_autocomplete_resp, hemp, hnone]

/-! ### C9 — pre-hook exit -/

/-- C9: if the pre-hooks up to some point return without signalling exit
and that hook signals exit, the slash pipeline runs exactly those
pre-hooks in registration order and returns normally: the handler, the
remaining pre-hooks and the post-hooks are never invoked and neither the
error chain nor the terminal error callback fires (the trace holds
pre-hook events only). -/
theorem C9_prehook_exit (m : ExecMeta) (ch : Bool) (pre : List Hook)
    (h : Hook) (rest : List Hook) (hm : m.hooks = pre ++ h :: rest)
    (hpre : ∀ x ∈ pre, isRetNoExitB x = true)
    (hx : signalsExitB h = true) :
    _handle_slash_resp m ch =
      ((pre ++ [h]).map (fun x => Event.preHookRun x.hid), .ok ()) := by
  have hh := handle_hooks_exit Event.preHookRun pre h rest hpre hx
  simp [_handle_slash_resp, hm, hh]

/-! ### C2 — exception containment -/

/-- C2 counterexample: a pre-hook exception is raised outside the
pipeline's try block and propagates out of `handle_resp`, with neither the
error chain nor the terminal callback fired — contradicting the claim that
every pipeline exception (including a pre-hook's) is contained. -/
theorem C2_containment_cex :
    handle_resp preHookRaiseClient boomInteraction false =
      ([Event.preHookRun 0], .error (.userError 7)) ∧
    Event.errorChainRun ∉
      (handle_resp preHookRaiseClient boomInteraction false).1 ∧
    (∀ b, Event.terminalCallbackRun b ∉
      (handle_resp preHookRaiseClient boomInteraction false).1) := by
  have he : handle_resp preHookRaiseClient boomInteraction false =
      ([Event.preHookRun 0], .error (.userError 7)) := by rfl
  refine ⟨he, ?_, ?_⟩
  · rw [he]; simp
  · intro b; rw [he]; simp

/-- C2 amended: exceptions raised by the command handler and the
post-hooks are caught and routed to the error chain and then the terminal
callback, and the only exceptions that escape the two pipelines are those
a pre-hook raises and the `KeyError` of a failed autocomplete-callback
lookup. -/
theorem C2_containment_amended (m : ExecMeta) (ch : Bool)
    (opts : List IOpt) (fut : Bool) :
    (∀ e, (_handle_slash_resp m ch).2 = .error e →
      ∃ hk ∈ m.hooks, hk.outcome = .raise e) ∧
    (∀ e, (_handle_autocomplete_resp m opts ch fut).2 = .error e →
      e = .keyError ∧ ∃ opt, _get_option_recursive opts = some opt ∧
        lookupStr m.autocomplete opt.name = none) ∧
    (∀ e, m.callback = .raise e →
      (_handle_hooks Event.preHookRun m.hooks).2 = .ok false →
      _handle_slash_resp m ch =
        ((_handle_hooks Event.preHookRun m.hooks).1 ++
          [Event.handlerRun, Event.errorChainRun,
           Event.terminalCallbackRun ch], .ok ())) := by
  refine ⟨?_, ?_, ?_⟩
  · intro e he
    cases hp : (_handle_hooks Event.preHookRun m.hooks).2 with
    | error e2 =>
      have h2 : e2 = e := by
        simp [_handle_slash_resp, hp] at he
        exact he
      subst h2
      exact handle_hooks_error _ _ e2 hp
    | ok b =>
      cases b with
      | true => simp [_handle_slash_resp, hp] at he
      | false =>
        cases hc : m.callback with
        | raise e0 => simp [_handle_slash_resp, hp, hc] at he
        | ok =>
          cases hq : (_handle_hooks Event.afterHookRun m.after_hooks).2 with
          | error e1 => simp [_handle_slash_resp, hp, hc, hq] at he
          | ok b2 => simp [_handle_slash_resp, hp, hc, hq] at he
  · intro e he
    by_cases hemp : m.autocomplete.isEmpty
    · simp [_handle_autocomplete_resp, hemp] at he
    · cases hopt : _get_option_recursive opts with
      | none => simp [_handle_autocomplete_resp, hemp, hopt] at he
      | some opt =>
        cases hl : lookupStr m.autocomplete opt.name with
        | none =>
          have h2 : e = .keyError := by
            simp [_handle_autocomplete_resp, hemp, hopt, hl] at he
            exact he.symm
          exact ⟨h2, opt, rfl, hl⟩
        | some ac =>
          cases ac with
          | raise e0 => simp [_handle_autocomplete_resp, hemp, hopt, hl] at he
          | ok chs => simp [_handle_autocomplete_resp, hemp, hopt, hl] at he
  · intro e hc hp
    simp [_handle_slash_resp, hp, hc]

/-- C2 amended, witnessed: a handler exception is routed to the error
chain and the terminal callback and does not escape. -/
theorem C2_containment_witness :
    _handle_slash_resp handlerRaiseMeta true =
      ([Event.handlerRun, Event.errorChainRun,
        Event.terminalCallbackRun true], .ok ()) := by
  have h := (C2_containment_amended handlerRaiseMeta true [] false).2.2
    (.userError 3) rfl rfl
  simpa [handlerRaiseMeta, _handle_hooks] using h

/-! ### C8 — handler lookup and miss behavior -/

/-- C8: `_get_command` is the guild-scoped registry lookup followed, on a
miss, by the same key at global (null-guild) scope; when both lookups
miss, `handle_resp` returns normally without invoking any handler, hook
or autocomplete callback, producing at most the unknown-command warning,
gated by `allow_unknown_interactions`. -/
theorem C8_lookup (c : ClientModel) (i : InteractionModel)
    (d : CrescentCommandData) (fut : Bool)
    (hd : _get_crescent_command_data i = .ok d)
    (hmiss : _get_command c.registry d.command_name i.command_type
      i.guild_id d.group d.sub_group = none) :
    handle_resp c i fut =
      ((if c.allow_unknown_interactions then [] else [Event.warnUnknown]),
        .ok ()) ∧
    (∀ (reg : List (Unique × ExecMeta)) (nm : String) (ty : Nat)
        (gid : Option Nat) (g sg : Option String),
      _get_command reg nm ty gid g sg =
        (assocGet reg (Unique.mk nm ty gid g sg)).or
          (assocGet reg (Unique.mk nm ty none g sg))) := by
  constructor
  · simp only [handle_resp, hd, hmiss]
    split <;> rfl
  · intro reg nm ty gid g sg
    unfold _get_command
    cases assocGet reg (Unique.mk nm ty gid g sg) <;> simp [Option.or]

/-- C8 witnessed at a concrete missed lookup: warning, normal return. -/
theorem C8_lookup_witness :
    handle_resp emptyClient
      (InteractionModel.mk "nope" 1 2 (some 4) [] none) false =
      ([Event.warnUnknown], .ok ()) := by
  have h := C8_lookup emptyClient
    (InteractionModel.mk "nope" 1 2 (some 4) [] none)
    (CrescentCommandData.mk "nope" none none []) false rfl rfl
  simpa [emptyClient] using h.1

/-! ### C1 — argument materializer -/

/-- C1 counterexample: a user option whose value id (2) is present in the
resolved table's `users` section is not materialized to the rich object —
the non-empty `members` section wins the section-level fallthrough and the
dict index raises `KeyError` — contradicting both the members-then-users
resolution and the never-fails raw fallback of the claim. -/
theorem C1_materializer_cex :
    lookupNat resolvedMixed.users 2 = some (RichObject.mk "user" 2) ∧
    _extract_value userOptTwo false (some resolvedMixed) =
      .error .keyError := by
  exact ⟨rfl, rfl⟩

/-- C1 amended: for a reference-typed option (role 8, user 6, channel 7,
attachment 11) in a non-autocomplete interaction, materialization returns
the rich object when the option's value id is found in the first non-empty
candidate section (members before users for a user option), passes the raw
value through when every candidate section is empty or absent, and raises
`KeyError` when the first non-empty candidate section lacks the id. -/
theorem C1_materializer_amended (o : IOpt) (v : Val)
    (r : ResolvedOptionData) (hv : o.value = some v)
    (ht : o.type = 8 ∨ o.type = 6 ∨ o.type = 7 ∨ o.type = 11) :
    (_get_resolved (some r) o.type = none →
      _extract_value o false (some r) = .ok (.raw v)) ∧
    (∀ sec id rich, _get_resolved (some r) o.type = some sec →
      v = .snowflake id → lookupNat sec id = some rich →
      _extract_value o false (some r) = .ok (.resolvedObj rich)) ∧
    (∀ sec id, _get_resolved (some r) o.type = some sec →
      v = .snowflake id → lookupNat sec id = none →
      _extract_value o false (some r) = .error .keyError) ∧
    (o.type = 6 → r.members ≠ [] →
      _get_resolved (some r) o.type = some r.members) ∧
    (o.type = 6 → r.members = [] → r.users ≠ [] →
      _get_resolved (some r) o.type = some r.users) := by
  have h9 : ¬ o.type = 9 := by rcases ht with h | h | h | h <;> omega
  refine ⟨?_, ?_, ?_, ?_, ?_⟩
  · intro hres
    simp [_extract_value, hv, h9, hres]
  · intro sec id rich hres hvs hl
    subst hvs
    simp [_extract_value, hv, h9, hres, hl]
  · intro sec id hres hvs hl
    subst hvs
    simp [_extract_value, hv, h9, hres, hl]
  · intro h6 hm
    match hmm : r.members with
    | [] => exact absurd hmm hm
    | a :: as =>
      simp [_get_resolved, h6, _VALUE_TYPE_LINK, firstTruthy, getSection,
        hmm]
  · intro h6 hm hu
    match hmu : r.users with
    | [] => exact absurd hmu hu
    | a :: as =>
      simp [_get_resolved, h6, _VALUE_TYPE_LINK, firstTruthy, getSection,
        hm, hmu]

/-- C1 amended, witnessed: a role option with its id present in the roles
section materializes to the resolved role object. -/
theorem C1_materializer_witness :
    _extract_value roleOptSeven false (some resolvedRoles) =
      .ok (.resolvedObj (RichObject.mk "role" 7)) := by
  have h := C1_materializer_amended roleOptSeven (.snowflake 7)
    resolvedRoles rfl (Or.inl rfl)
  exact h.2.1 resolvedRoles.roles 7 (RichObject.mk "role" 7) rfl rfl rfl

/-! ### Generic association-list lemmas -/

theorem assocGet_assocSet_self {α : Type} (l : List (Unique × α))
    (k : Unique) (v : α) : assocGet (assocSet l k v) k = some v := by
  induction l with
  | nil => simp [assocSet, assocGet]
  | cons e rest ih =>
    by_cases h : e.1 = k
    · simp [assocSet, h, assocGet]
    · simp [assocSet, h, assocGet, ih]

theorem assocGet_assocSet_ne {α : Type} (l : List (Unique × α))
    (k k2 : Unique) (v : α) (h : k2 ≠ k) :
    assocGet (assocSet l k v) k2 = assocGet l k2 := by
  have hks : ¬ k = k2 := fun heq => h heq.symm
  induction l with
  | nil => simp [assocSet, assocGet, hks]
  | cons e rest ih =>
    by_cases he : e.1 = k
    · simp [assocSet, he, assocGet, hks]
    · by_cases he2 : e.1 = k2
      · simp [assocSet, he, assocGet, he2, h]
      · simp [assocSet, he, assocGet, he2, ih]

theorem buildGo_fst (dg : Option Nat) (ms : List MetaStruct)
    (built : List (Unique × AppCommand))
    (res : List MetaStruct × List (Unique × AppCommand))
    (h : buildGo dg ms built = .ok res) :
    res.1 = ms.map (applyDefaultGuild dg) := by
  induction ms generalizing built res with
  | nil =>
    simp only [buildGo] at h
    cases h
    rfl
  | cons m rest ih =>
    simp only [buildGo] at h
    cases hs : buildStep built (applyDefaultGuild dg m) with
    | error e => simp [hs] at h
    | ok built2 =>
      cases hr : buildGo dg rest built2 with
      | error e => simp [hs, hr] at h
      | ok pr =>
        obtain ⟨ms2, b2⟩ := pr
        simp only [hs, hr] at h
        cases h
        simpa using ih built2 (ms2, b2) hr

/-! ### C10 — register frame conditions -/

/-- C10 counterexample: a handler that explicitly specified guild 0 (a
falsy snowflake, not `None`) still has its guild scope overwritten with
the configured default — contradicting the claim that the guild scope is
overwritten only when the handler specified none. -/
theorem C10_register_cex :
    zeroGuildMeta.metadata.app.guild_id = some 0 ∧
    (register (some 5) [] zeroGuildMeta).2.metadata.app.guild_id =
      some 5 := by
  exact ⟨rfl, rfl⟩

/-- C10 amended: `register` returns the stored handler; its only
modification is overwriting the descriptor's guild scope with the default
guild when the handler specified none or the falsy snowflake 0 (a nonzero
guild is kept and the handler is returned unchanged); every other
descriptor field, the group and subgroup labels and the callback identity
are preserved, the handler is stored under its own key and every other
registry entry is untouched; and `build_commands` applies the identical
guild-scope defaulting to every registered handler as its side effect on
the registry. -/
theorem C10_register_amended (dg : Option Nat)
    (st : List (Unique × MetaStruct)) (c : MetaStruct) :
    (register dg st c).2 = applyDefaultGuild dg c ∧
    (register dg st c).2.callback_id = c.callback_id ∧
    (register dg st c).2.metadata.group = c.metadata.group ∧
    (register dg st c).2.metadata.sub_group = c.metadata.sub_group ∧
    (register dg st c).2.metadata.app.name = c.metadata.app.name ∧
    (register dg st c).2.metadata.app.description =
      c.metadata.app.description ∧
    (register dg st c).2.metadata.app.type = c.metadata.app.type ∧
    (register dg st c).2.metadata.app.options = c.metadata.app.options ∧
    (register dg st c).2.metadata.app.default_permission =
      c.metadata.app.default_permission ∧
    (register dg st c).2.metadata.app.id = c.metadata.app.id ∧
    (register dg st c).2.metadata.app.guild_id =
      orGuild c.metadata.app.guild_id dg ∧
    (∀ n, c.metadata.app.guild_id = some (n + 1) →
      (register dg st c).2 = c) ∧
    assocGet (register dg st c).1 (uniqueOfMeta (register dg st c).2) =
      some (register dg st c).2 ∧
    (∀ k, k ≠ uniqueOfMeta (register dg st c).2 →
      assocGet (register dg st c).1 k = assocGet st k) ∧
    (∀ (ms : List MetaStruct) (built : List (Unique × AppCommand)) res,
      buildGo dg ms built = .ok res →
      res.1 = ms.map (applyDefaultGuild dg)) := by
  refine ⟨rfl, rfl, rfl, rfl, rfl, rfl, rfl, rfl, rfl, rfl, rfl, ?_, ?_,
    ?_, ?_⟩
  · intro n hgu
    obtain ⟨cb, ⟨g, sg, ⟨t, nm, de, gu, o, dp, idf⟩⟩⟩ := c
    simp only at hgu
    subst hgu
    simp [register, applyDefaultGuild, orGuild]
  · exact assocGet_assocSet_self st _ _
  · intro k hk
    exact assocGet_assocSet_ne st _ k _ hk
  · intro ms built res h
    exact buildGo_fst dg ms built res h

/-- C6 witnessed on the concrete sub-command-group interaction. -/
theorem C6_router_witness :
    _get_crescent_command_data scgInteraction =
      .ok (CrescentCommandData.mk "leafcmd" (some "top") (some "grp")
        [scgLeafX, scgLeafY]) := by
  have h := (C6_router scgInteraction).1 scgTop [] scgSub [] rfl rfl rfl
  simpa [scgInteraction, scgTop, scgSub] using h

/-- C7 witnessed: the depth-first characterization on the three-level
tree with its single focused option at the deepest level, and the silent
return of the autocomplete pipeline on the unfocused tree. -/
theorem C7_focus_witness :
    _get_option_recursive deepTree =
      (flattenOpts deepTree).find? IOpt.is_focused ∧
    _handle_autocomplete_resp (ExecMeta.mk [] [] .ok [("c", .ok [])])
      noFocusTree true false = ([], .ok ()) := by
  refine ⟨(C7_focus deepTree).1, ?_⟩
  exact (C7_focus noFocusTree).2.2
    (by simp [_get_option_recursive, noFocusTree]) _ _ _

/-- C9 witnessed: hook 0 passes, hook 1 signals exit; hook 2, the handler
and the post-hook are never reached and no error is reported. -/
theorem C9_prehook_exit_witness :
    _handle_slash_resp exitHooksMeta true =
      ([Event.preHookRun 0, Event.preHookRun 1], .ok ()) := by
  have h := C9_prehook_exit exitHooksMeta true [Hook.mk 0 (.ret none)]
    (Hook.mk 1 (.ret (some (HookResult.mk true))))
    [Hook.mk 2 (.raise (.userError 9))] rfl (by decide) (by decide)
  simpa using h

/-- C10 amended, witnessed: a handler with no guild gets the default and
is stored; an unrelated key still misses. -/
theorem C10_register_witness :
    (register (some 5) [] (mkHandler 0 none none "w" none)).2 =
      applyDefaultGuild (some 5) (mkHandler 0 none none "w" none) ∧
    assocGet (register (some 5) [] (mkHandler 0 none none "w" none)).1
      (Unique.mk "other" 1 none none none) = none := by
  have h := C10_register_amended (some 5) []
    (mkHandler 0 none none "w" none)
  refine ⟨h.1, ?_⟩
  have h2 := h.2.2.2.2.2.2.2.2.2.2.2.2.2.1
  exact (h2 (Unique.mk "other" 1 none none none) (by decide)).trans rfl

/-! ### More association-list lemmas -/

theorem assocSet_assocSet {α : Type} (l : List (Unique × α)) (k : Unique)
    (v w : α) : assocSet (assocSet l k v) k w = assocSet l k w := by
  induction l with
  | nil => simp [assocSet]
  | cons e rest ih =>
    by_cases h : e.1 = k
    · simp [assocSet, h]
    · simp [assocSet, h, ih]

theorem assocGet_eq_some_mem {α : Type} (l : List (Unique × α)) (k : Unique)
    (v : α) (h : assocGet l k = some v) : (k, v) ∈ l := by
  induction l with
  | nil => simp [assocGet] at h
  | cons e rest ih =>
    by_cases he : e.1 = k
    · simp [assocGet, he] at h
      obtain ⟨k2, v2⟩ := e
      simp at he
      subst he
      subst h
      simp
    · simp [assocGet, he] at h
      simp [ih h]

theorem assocGet_none_not_mem {α : Type} (l : List (Unique × α))
    (k : Unique) (h : assocGet l k = none) : k ∉ l.map Prod.fst := by
  induction l with
  | nil => simp
  | cons e rest ih =>
    by_cases he : e.1 = k
    · simp [assocGet, he] at h
    · simp [assocGet, he] at h
      simp [ih h]
      exact fun heq => he heq.symm

theorem assocSet_fresh {α : Type} (l : List (Unique × α)) (k : Unique)
    (v : α) (h : assocGet l k = none) : assocSet l k v = l ++ [(k, v)] := by
  induction l with
  | nil => simp [assocSet]
  | cons e rest ih =>
    by_cases he : e.1 = k
    · simp [assocGet, he] at h
    · simp [assocGet, he] at h
      simp [assocSet, he, ih h]

theorem mem_assocSet_iff {α : Type} (l : List (Unique × α)) (k : Unique)
    (v : α) (hnd : (l.map Prod.fst).Nodup) (e : Unique × α) :
    e ∈ assocSet l k v ↔ e = (k, v) ∨ (e ∈ l ∧ e.1 ≠ k) := by
  induction l with
  | nil => simp [assocSet]
  | cons e0 rest ih =>
    simp only [List.map_cons, List.nodup_cons] at hnd
    obtain ⟨h0nin, hrest⟩ := hnd
    by_cases h0 : e0.1 = k
    · simp only [assocSet, h0, if_pos rfl]
      constructor
      · intro hmem
        rcases List.mem_cons.mp hmem with heq | hin
        · exact Or.inl heq
        · refine Or.inr ⟨List.mem_cons.mpr (Or.inr hin), ?_⟩
          intro hfst
          exact h0nin (by rw [h0, ← hfst]; exact List.mem_map_of_mem _ hin)
      · rintro (heq | ⟨hin, hne⟩)
        · exact List.mem_cons.mpr (Or.inl heq)
        · rcases List.mem_cons.mp hin with heq0 | hin2
          · exact absurd (heq0 ▸ h0) hne
          · exact List.mem_cons.mpr (Or.inr hin2)
    · simp only [assocSet, h0, if_neg h0]
      constructor
      · intro hmem
        rcases List.mem_cons.mp hmem with heq | hin
        · subst heq
          exact Or.inr ⟨List.mem_cons.mpr (Or.inl rfl), h0⟩
        · rcases (ih hrest).mp hin with heq | ⟨hin2, hne⟩
          · exact Or.inl heq
          · exact Or.inr ⟨List.mem_cons.mpr (Or.inr hin2), hne⟩
      · rintro (heq | ⟨hin, hne⟩)
        · exact List.mem_cons.mpr (Or.inr ((ih hrest).mpr (Or.inl heq)))
        · rcases List.mem_cons.mp hin with heq0 | hin2
          · exact List.mem_cons.mpr (Or.inl heq0)
          · exact List.mem_cons.mpr
              (Or.inr ((ih hrest).mpr (Or.inr ⟨hin2, hne⟩)))

theorem keys_assocSet_of_get {α : Type} (l : List (Unique × α))
    (k : Unique) (v w : α) (h : assocGet l k = some w) :
    (assocSet l k v).map Prod.fst = l.map Prod.fst := by
  induction l with
  | nil => simp [assocGet] at h
  | cons e rest ih =>
    by_cases he : e.1 = k
    · simp [assocSet, he]
    · simp [assocGet, he] at h
      simp [assocSet, he, ih h]

theorem unique_ext (a b : Unique) (h1 : a.name = b.name)
    (h2 : a.type = b.type) (h3 : a.guild_id = b.guild_id)
    (h4 : a.group = b.group) (h5 : a.sub_group = b.sub_group) : a = b := by
  obtain ⟨n1, t1, g1, gr1, sg1⟩ := a
  obtain ⟨n0, t0, g0, gr0, sg0⟩ := b
  simp only [Unique.mk.injEq]
  exact ⟨h1, h2, h3, h4, h5⟩

theorem nodup_keys_eq {α : Type} (l : List (Unique × α))
    (hnd : (l.map Prod.fst).Nodup) (e1 e2 : Unique × α) (h1 : e1 ∈ l)
    (h2 : e2 ∈ l) (hf : e1.1 = e2.1) : e1 = e2 := by
  induction l with
  | nil => simp at h1
  | cons a rest ih =>
    simp only [List.map_cons, List.nodup_cons] at hnd
    obtain ⟨hanin, hrest⟩ := hnd
    rcases List.mem_cons.mp h1 with he1 | he1 <;>
      rcases List.mem_cons.mp h2 with he2 | he2
    · rw [he1, he2]
    · rw [he1] at hf
      exact absurd (by rw [hf]; exact List.mem_map_of_mem _ he2) hanin
    · rw [he2] at hf
      exact absurd (by rw [← hf]; exact List.mem_map_of_mem _ he1) hanin
    · exact ih hrest he1 he2

/-! ### C5 — one top-level descriptor per group of subcommands -/

theorem buildGo_group_only (dg : Option Nat) (g : String) (gu : Option Nat)
    (hg : g ≠ "") (ms : List MetaStruct) (d : AppCommand)
    (cs : List CommandOption) (hd : d.options = some cs)
    (hall : ∀ m ∈ ms, m.metadata.group = some g ∧
      truthyStr m.metadata.sub_group = false ∧ m.metadata.app.type = 1 ∧
      orGuild m.metadata.app.guild_id dg = gu) :
    buildGo dg ms [(Unique.mk g 1 gu none none, d)] =
      .ok (ms.map (applyDefaultGuild dg),
        [(Unique.mk g 1 gu none none,
          withOptions d
            (some (cs ++ ms.map (fun m => groupLeaf m.metadata.app))))]) := by
  revert hd hall
  induction ms generalizing d cs with
  | nil =>
    intro hd hall
    obtain ⟨t, nm, de, gu2, o, dp, idf⟩ := d
    simp only [AppCommand.options] at hd
    subst hd
    simp [buildGo, withOptions]
  | cons m rest ih =>
    intro hd hall
    obtain ⟨hgm, hsm, htm, hgum⟩ := hall m (by simp)
    have hstep : buildStep [(Unique.mk g 1 gu none none, d)]
        (applyDefaultGuild dg m) =
        .ok [(Unique.mk g 1 gu none none,
              withOptions d (some (cs ++ [groupLeaf m.metadata.app])))] := by
      have htg : truthyStr (some g) = true := by simp [truthyStr, hg]
      simp [buildStep, applyDefaultGuild, hgm, hsm, htg, htm, hgum,
        strVal, containsKey, assocGet, assocSet, hd, withOptions,
        groupLeaf]
    have hrest := ih (withOptions d (some (cs ++ [groupLeaf m.metadata.app])))
      (cs ++ [groupLeaf m.metadata.app]) rfl
      (fun m2 hm2 => hall m2 (by simp [hm2]))
    simp only [buildGo, hstep, hrest]
    simp [withOptions]

/-- C5: for a registry whose handlers all share group `g` (and no truthy
subgroup, chat-input type, one common defaulted guild scope),
`build_commands` produces exactly one top-level descriptor named after the
group, whose option list holds one sub-command-typed option per handler,
in registration order, each carrying the handler's name, description and
options. -/
theorem C5_group_tree (dg : Option Nat) (g : String) (gu : Option Nat)
    (m0 : MetaStruct) (rest : List MetaStruct) (hg : g ≠ "")
    (hall : ∀ m ∈ m0 :: rest, m.metadata.group = some g ∧
      truthyStr m.metadata.sub_group = false ∧ m.metadata.app.type = 1 ∧
      orGuild m.metadata.app.guild_id dg = gu) :
    build_commands dg (m0 :: rest) =
      .ok ((m0 :: rest).map (applyDefaultGuild dg),
        [AppCommand.mk 1 g "HIDDEN" gu
          (some ((m0 :: rest).map (fun m => groupLeaf m.metadata.app)))
          m0.metadata.app.default_permission none]) := by
  obtain ⟨hgm, hsm, htm, hgum⟩ := hall m0 (by simp)
  have hstep0 : buildStep [] (applyDefaultGuild dg m0) =
      .ok [(Unique.mk g 1 gu none none,
        AppCommand.mk 1 g "HIDDEN" gu (some [groupLeaf m0.metadata.app])
          m0.metadata.app.default_permission none)] := by
    have htg : truthyStr (some g) = true := by simp [truthyStr, hg]
    simp [buildStep, applyDefaultGuild, hgm, hsm, htg, htm, hgum,
      strVal, containsKey, assocGet, assocSet, withOptions, groupLeaf]
  have hrest := buildGo_group_only dg g gu hg rest
    (AppCommand.mk 1 g "HIDDEN" gu (some [groupLeaf m0.metadata.app])
      m0.metadata.app.default_permission none)
    [groupLeaf m0.metadata.app] rfl
    (fun m2 hm2 => hall m2 (by simp [hm2]))
  simp only [build_commands, buildGo, hstep0, hrest]
  simp [withOptions]

/-- C5 witnessed on two concrete handlers of group `soc`. -/
theorem C5_group_tree_witness :
    build_commands (some 9) [w5a, w5b] =
      .ok ([w5a, w5b].map (applyDefaultGuild (some 9)),
        [AppCommand.mk 1 "soc" "HIDDEN" (some 9)
          (some ([w5a, w5b].map (fun m => groupLeaf m.metadata.app)))
          w5a.metadata.app.default_permission none]) :=
  C5_group_tree (some 9) "soc" (some 9) w5a [w5b] (by decide) (by decide)

/-! ### C4 — sub-command-group synthesis and idempotence -/

theorem appendLeaf_spec (cs : List CommandOption) (sg : String)
    (leaf : CommandOption) (hinv : ∀ c ∈ cs, scgChildInv c) :
    ∃ cs2, appendLeafToGroup cs sg leaf = .ok cs2 ∧
      (∀ c ∈ cs2, scgChildInv c) ∧
      cs2.map CommandOption.name =
        (if sg ∈ cs.map CommandOption.name then cs.map CommandOption.name
         else cs.map CommandOption.name ++ [sg]) := by
  induction cs with
  | nil =>
    refine ⟨[CommandOption.mk sg "HIDDEN" 2 (some [leaf]) none], rfl, ?_, ?_⟩
    · intro c hc
      simp at hc
      subst hc
      exact ⟨rfl, rfl, [leaf], rfl⟩
    · simp [CommandOption.name]
  | cons c rest ih =>
    obtain ⟨cn, cd, ctp, co, cr⟩ := c
    obtain ⟨ht, hdes, os, hos⟩ :=
      hinv (CommandOption.mk cn cd ctp co cr) (by simp)
    simp only [CommandOption.type, CommandOption.description,
      CommandOption.options] at ht hdes hos
    subst ht hdes hos
    obtain ⟨cs2', hok, hinv2, hnames⟩ := ih (fun x hx => hinv x (by simp [hx]))
    by_cases hname : cn = sg
    · subst hname
      refine ⟨CommandOption.mk cn "HIDDEN" 2 (some (os ++ [leaf])) cr ::
          rest, ?_, ?_, ?_⟩
      · simp [appendLeafToGroup, CommandOption.name,
          CommandOption.description, CommandOption.type,
          CommandOption.options, CommandOption.is_required]
      · intro x hx
        rcases List.mem_cons.mp hx with hx1 | hx2
        · subst hx1
          exact ⟨rfl, rfl, os ++ [leaf], rfl⟩
        · exact hinv x (by simp [hx2])
      · simp [CommandOption.name]
    · have hhn : CommandOption.name
          (CommandOption.mk cn "HIDDEN" 2 (some os) cr) = cn := rfl
      have hmem : sg ∈ (CommandOption.mk cn "HIDDEN" 2 (some os) cr ::
          rest).map CommandOption.name ↔
          sg ∈ rest.map CommandOption.name := by
        simp only [List.map_cons, hhn, List.mem_cons]
        constructor
        · rintro (h | h)
          · exact absurd h.symm hname
          · exact h
        · exact fun h => Or.inr h
      refine ⟨CommandOption.mk cn "HIDDEN" 2 (some os) cr :: cs2', ?_, ?_,
        ?_⟩
      · simp [appendLeafToGroup, CommandOption.name,
          CommandOption.description, CommandOption.type, hname, hok,
          Except.map]
      · intro x hx
        rcases List.mem_cons.mp hx with hx1 | hx2
        · subst hx1
          exact ⟨rfl, rfl, os, rfl⟩
        · exact hinv2 x hx2
      · by_cases hin : sg ∈ rest.map CommandOption.name
        · rw [if_pos (hmem.mpr hin)]
          simp only [List.map_cons, hhn, hnames, if_pos hin]
        · rw [if_neg (fun hcon => hin (hmem.mp hcon))]
          simp only [List.map_cons, hhn, hnames, if_neg hin,
            List.cons_append]

theorem buildStep_sub (dg : Option Nat) (m : MetaStruct) (g s : String)
    (hg : m.metadata.group = some g) (hs : m.metadata.sub_group = some s)
    (hsne : s ≠ "") (htype : m.metadata.app.type = 1)
    (built : List (Unique × AppCommand)) (hinv : builtInv built) :
    ∃ built2, buildStep built (applyDefaultGuild dg m) = .ok built2 ∧
      builtInv built2 ∧
      (∀ g2 gu2 s2, scgMem built2 g2 gu2 s2 ↔ scgMem built g2 gu2 s2 ∨
        (m.metadata.group = some g2 ∧ strVal m.metadata.sub_group = s2 ∧
          orGuild m.metadata.app.guild_id dg = gu2)) := by
  obtain ⟨hknd, hentries⟩ := hinv
  have hts : truthyStr (some s) = true := by simp [truthyStr, hsne]
  have hstrv : strVal m.metadata.sub_group = s := by simp [strVal, hs]
  cases hk : assocGet built
      (Unique.mk g 1 (orGuild m.metadata.app.guild_id dg) none none) with
  | none =>
    refine ⟨built ++ [(Unique.mk g 1 (orGuild m.metadata.app.guild_id dg)
        none none,
      AppCommand.mk 1 g "HIDDEN" (orGuild m.metadata.app.guild_id dg)
        (some [CommandOption.mk s "HIDDEN" 2
          (some [subGroupLeaf m.metadata.app]) none])
        m.metadata.app.default_permission none)], ?_, ?_, ?_⟩
    · rw [← assocSet_fresh built
        (Unique.mk g 1 (orGuild m.metadata.app.guild_id dg) none none)
        (AppCommand.mk 1 g "HIDDEN" (orGuild m.metadata.app.guild_id dg)
          (some [CommandOption.mk s "HIDDEN" 2
            (some [subGroupLeaf m.metadata.app]) none])
          m.metadata.app.default_permission none) hk]
      simp [buildStep, applyDefaultGuild, hg, hs, hts, htype, containsKey,
        hk, assocGet_assocSet_self, assocSet_assocSet, hstrv,
        appendLeafToGroup, withOptions, subGroupLeaf, strVal]
    · constructor
      · simp only [List.map_append, List.map_cons, List.map_nil]
        rw [List.nodup_append]
        exact ⟨hknd, List.nodup_singleton _,
          by simpa using fun h => assocGet_none_not_mem built _ hk h⟩
      · intro e he
        rcases List.mem_append.mp he with he1 | he2
        · exact hentries e he1
        · simp at he2
          subst he2
          exact ⟨rfl, rfl, rfl, rfl, rfl,
            [CommandOption.mk s "HIDDEN" 2
              (some [subGroupLeaf m.metadata.app]) none], rfl,
            fun c hc => by
              simp at hc
              subst hc
              exact ⟨rfl, rfl, [subGroupLeaf m.metadata.app], rfl⟩,
            by simp [CommandOption.name]⟩
    · intro g2 gu2 s2
      constructor
      · rintro ⟨e, he, hn, hgu, cs, hcs, hsmem⟩
        rcases List.mem_append.mp he with he1 | he2
        · exact Or.inl ⟨e, he1, hn, hgu, cs, hcs, hsmem⟩
        · simp at he2
          subst he2
          simp at hn hgu hcs
          subst hcs
          simp [CommandOption.name] at hsmem
          exact Or.inr ⟨by rw [hg, hn], by rw [hstrv, hsmem], by
            rw [hgu]⟩
      · rintro (⟨e, he, hn, hgu, cs, hcs, hsmem⟩ | ⟨hg2, hs2, hgu2⟩)
        · exact ⟨e, List.mem_append.mpr (Or.inl he), hn, hgu, cs, hcs,
            hsmem⟩
        · rw [hg] at hg2
          rw [hstrv] at hs2
          refine ⟨(Unique.mk g 1 (orGuild m.metadata.app.guild_id dg)
              none none,
            AppCommand.mk 1 g "HIDDEN" (orGuild m.metadata.app.guild_id dg)
              (some [CommandOption.mk s "HIDDEN" 2
                (some [subGroupLeaf m.metadata.app]) none])
              m.metadata.app.default_permission none),
            List.mem_append.mpr (Or.inr (by simp)), ?_, ?_,
            [CommandOption.mk s "HIDDEN" 2
              (some [subGroupLeaf m.metadata.app]) none], rfl, ?_⟩
          · simp at hg2
            simp [hg2]
          · simp [hgu2]
          · simp [CommandOption.name, hs2]
  | some parent =>
    have hpmem := assocGet_eq_some_mem built _ parent hk
    obtain ⟨hkt, hkg, hksg, hpname, hpguild, cs, hcs, hcsinv, hcsnd⟩ :=
      hentries _ hpmem
    dsimp only at hpname hpguild hcs
    obtain ⟨cs2, hok, hinv2, hnames⟩ :=
      appendLeaf_spec cs s (subGroupLeaf m.metadata.app) hcsinv
    have hok2 : appendLeafToGroup cs s
        (CommandOption.mk m.metadata.app.name m.metadata.app.description 1
          m.metadata.app.options none) = .ok cs2 := hok
    refine ⟨assocSet built
        (Unique.mk g 1 (orGuild m.metadata.app.guild_id dg) none none)
        (withOptions parent (some cs2)), ?_, ?_, ?_⟩
    · simp [buildStep, applyDefaultGuild, hg, hs, hts, htype, containsKey,
        hk, hcs, hok2, hstrv, withOptions, subGroupLeaf, strVal]
    · constructor
      · rw [keys_assocSet_of_get built _ _ parent hk]
        exact hknd
      · intro e he
        rcases (mem_assocSet_iff built _ _ hknd e).mp he with heq | ⟨hin, _⟩
        · subst heq
          refine ⟨rfl, rfl, rfl, ?_, ?_, cs2, rfl, hinv2, ?_⟩
          · simpa [withOptions] using hpname
          · simpa [withOptions] using hpguild
          · rw [hnames]
            by_cases hin2 : s ∈ cs.map CommandOption.name
            · simpa [hin2] using hcsnd
            · simp only [hin2, if_neg, ite_false]
              rw [List.nodup_append]
              exact ⟨hcsnd, List.nodup_singleton _, by simpa using hin2⟩
        · exact hentries e hin
    · intro g2 gu2 s2
      constructor
      · rintro ⟨e, he, hn, hgu, cs3, hcs3, hsmem⟩
        rcases (mem_assocSet_iff built _ _ hknd e).mp he with heq | ⟨hin, _⟩
        · subst heq
          dsimp only [withOptions] at hcs3
          have hcseq : cs3 = cs2 := (Option.some.inj hcs3).symm
          rw [hcseq] at hsmem
          rw [hnames] at hsmem
          by_cases hin2 : s ∈ cs.map CommandOption.name
          · rw [if_pos hin2] at hsmem
            exact Or.inl ⟨(Unique.mk g 1
                (orGuild m.metadata.app.guild_id dg) none none, parent),
              hpmem, hn, hgu, cs, hcs, hsmem⟩
          · rw [if_neg hin2] at hsmem
            rcases List.mem_append.mp hsmem with hs3 | hs3
            · exact Or.inl ⟨(Unique.mk g 1
                  (orGuild m.metadata.app.guild_id dg) none none, parent),
                hpmem, hn, hgu, cs, hcs, hs3⟩
            · simp at hs3
              refine Or.inr ⟨?_, ?_, ?_⟩
              · simp at hn
                rw [hg, hn]
              · rw [hstrv, hs3]
              · simp at hgu
                rw [hgu]
        · exact Or.inl ⟨e, hin, hn, hgu, cs3, hcs3, hsmem⟩
      · rintro (⟨e, he, hn, hgu, cs3, hcs3, hsmem⟩ | ⟨hg2, hs2, hgu2⟩)
        · by_cases hekey : e.1 =
              Unique.mk g 1 (orGuild m.metadata.app.guild_id dg) none none
          · have heqp : e = (Unique.mk g 1
                (orGuild m.metadata.app.guild_id dg) none none, parent) :=
              nodup_keys_eq built hknd e _ he hpmem hekey
            rw [heqp] at hcs3 hn hgu
            dsimp only at hcs3
            rw [hcs] at hcs3
            have hcseq : cs3 = cs := (Option.some.inj hcs3).symm
            rw [hcseq] at hsmem
            refine ⟨(Unique.mk g 1 (orGuild m.metadata.app.guild_id dg)
                none none, withOptions parent (some cs2)),
              (mem_assocSet_iff built _ _ hknd _).mpr (Or.inl rfl),
              hn, hgu, cs2, rfl, ?_⟩
            rw [hnames]
            by_cases hin2 : s ∈ cs.map CommandOption.name
            · rwa [if_pos hin2]
            · rw [if_neg hin2]
              exact List.mem_append.mpr (Or.inl hsmem)
          · exact ⟨e, (mem_assocSet_iff built _ _ hknd e).mpr
              (Or.inr ⟨he, hekey⟩), hn, hgu, cs3, hcs3, hsmem⟩
        · rw [hg] at hg2
          rw [hstrv] at hs2
          simp at hg2
          refine ⟨(Unique.mk g 1 (orGuild m.metadata.app.guild_id dg)
              none none, withOptions parent (some cs2)),
            (mem_assocSet_iff built _ _ hknd _).mpr (Or.inl rfl),
            by simp [hg2], by simp [hgu2], cs2, rfl, ?_⟩
          rw [hnames]
          by_cases hin2 : s ∈ cs.map CommandOption.name
          · rw [if_pos hin2, ← hs2]
            exact hin2
          · rw [if_neg hin2, ← hs2]
            exact List.mem_append.mpr (Or.inr (by simp))

theorem buildGo_sub (dg : Option Nat) (ms : List MetaStruct)
    (built : List (Unique × AppCommand))
    (hms : ∀ m ∈ ms, subGroupedB m = true) (hinv : builtInv built) :
    ∃ built2,
      buildGo dg ms built = .ok (ms.map (applyDefaultGuild dg), built2) ∧
      builtInv built2 ∧
      (∀ g gu s, scgMem built2 g gu s ↔ scgMem built g gu s ∨
        ∃ m ∈ ms, m.metadata.group = some g ∧
          strVal m.metadata.sub_group = s ∧
          orGuild m.metadata.app.guild_id dg = gu) := by
  induction ms generalizing built with
  | nil => exact ⟨built, by simp [buildGo], hinv, by simp⟩
  | cons m rest ih =>
    have hm := hms m (by simp)
    simp only [subGroupedB, Bool.and_eq_true, beq_iff_eq] at hm
    obtain ⟨⟨hgsome, htruthy⟩, htype⟩ := hm
    obtain ⟨g, hg⟩ := Option.isSome_iff_exists.mp hgsome
    obtain ⟨s, hsv, hsne⟩ : ∃ s, m.metadata.sub_group = some s ∧ s ≠ "" := by
      cases hsub : m.metadata.sub_group with
      | none => rw [hsub] at htruthy; simp [truthyStr] at htruthy
      | some s0 =>
        rw [hsub] at htruthy
        simp [truthyStr] at htruthy
        exact ⟨s0, rfl, htruthy⟩
    obtain ⟨built2, hstep, hinv2, hmem2⟩ :=
      buildStep_sub dg m g s hg hsv hsne htype built hinv
    obtain ⟨built3, hgo, hinv3, hmem3⟩ :=
      ih built2 (fun x hx => hms x (List.mem_cons.mpr (Or.inr hx))) hinv2
    refine ⟨built3, ?_, hinv3, ?_⟩
    · simp [buildGo, hstep, hgo]
    · intro g2 gu2 s2
      rw [hmem3, hmem2]
      constructor
      · rintro ((hb | htup) | ⟨m2, hm2, hmp⟩)
        · exact Or.inl hb
        · exact Or.inr ⟨m, by simp, htup⟩
        · exact Or.inr ⟨m2, by simp [hm2], hmp⟩
      · rintro (hb | ⟨m2, hm2, hmp⟩)
        · exact Or.inl (Or.inl hb)
        · rcases List.mem_cons.mp hm2 with heq | hin
          · subst heq
            exact Or.inl (Or.inr hmp)
          · exact Or.inr ⟨m2, hin, hmp⟩

theorem orGuild_idem (x d : Option Nat) :
    orGuild (orGuild x d) d = orGuild x d := by
  cases x with
  | none =>
    cases d with
    | none => rfl
    | some n => cases n <;> rfl
  | some n =>
    cases n with
    | zero =>
      cases d with
      | none => rfl
      | some n2 => cases n2 <;> rfl
    | succ k => rfl

theorem applyDefaultGuild_idem (dg : Option Nat) (m : MetaStruct) :
    applyDefaultGuild dg (applyDefaultGuild dg m) = applyDefaultGuild dg m := by
  obtain ⟨cb, ⟨g, sg, ⟨t, nm, de, gu, o, dp, idf⟩⟩⟩ := m
  simp [applyDefaultGuild, orGuild_idem]

theorem buildGo_map_default (dg : Option Nat) (ms : List MetaStruct)
    (built : List (Unique × AppCommand)) :
    buildGo dg (ms.map (applyDefaultGuild dg)) built = buildGo dg ms built := by
  induction ms generalizing built with
  | nil => rfl
  | cons m rest ihm =>
    simp only [List.map_cons, buildGo, applyDefaultGuild_idem, ihm]

/-- Shared helper: `build_commands` is idempotent — re-running it on the
registry it returns reproduces the same registry and command list. -/
theorem build_commands_idem (dg : Option Nat)
    (registry reg2 : List MetaStruct) (cmds : List AppCommand)
    (h : build_commands dg registry = .ok (reg2, cmds)) :
    build_commands dg reg2 = .ok (reg2, cmds) := by
  unfold build_commands at h ⊢
  cases hg : buildGo dg registry [] with
  | error e => rw [hg] at h; simp at h
  | ok pr =>
    obtain ⟨ms2, b2⟩ := pr
    simp only [hg] at h
    have hp := Except.ok.inj h
    have h1 : ms2 = reg2 := congrArg Prod.fst hp
    have h2 : List.map (fun e => e.2) b2 = cmds := congrArg Prod.snd hp
    have hms : ms2 = registry.map (applyDefaultGuild dg) :=
      buildGo_fst dg registry [] (ms2, b2) hg
    rw [← h1, ← h2, hms, buildGo_map_default dg registry [], hg, ← hms]

/-- C4: for a registry whose handlers all carry a group, a truthy subgroup
and the chat-input type, `build_commands` succeeds and, in every produced
top-level descriptor, the child options are sub-command-group options
(type 2, placeholder description) whose names are free of duplicates, a
subgroup name occurring exactly when some registered handler carries that
(group, subgroup) pair for this descriptor's guild scope — hence exactly
one sub-command-group option per distinct pair regardless of how many
handlers share it; and re-running `build_commands` on the resulting
registry reproduces the identical tree (idempotence). -/
theorem C4_subgroup_tree (dg : Option Nat) (registry : List MetaStruct)
    (hall : ∀ m ∈ registry, subGroupedB m = true) :
    ∃ reg2 cmds, build_commands dg registry = .ok (reg2, cmds) ∧
      (∀ d ∈ cmds, ∃ cs, d.options = some cs ∧
        (∀ c ∈ cs, c.type = 2 ∧ c.description = "HIDDEN") ∧
        ∀ s, (cs.map CommandOption.name).count s ≤ 1 ∧
          (s ∈ cs.map CommandOption.name ↔
            ∃ m ∈ registry, m.metadata.group = some d.name ∧
              strVal m.metadata.sub_group = s ∧
              orGuild m.metadata.app.guild_id dg = d.guild_id)) ∧
      build_commands dg reg2 = .ok (reg2, cmds) := by
  obtain ⟨built2, hgo, ⟨hknd2, hentries2⟩, hmem2⟩ :=
    buildGo_sub dg registry [] hall ⟨List.nodup_nil, by simp⟩
  have hbc : build_commands dg registry =
      .ok (registry.map (applyDefaultGuild dg),
        built2.map (fun e => e.2)) := by
    simp [build_commands, hgo]
  refine ⟨registry.map (applyDefaultGuild dg), built2.map (fun e => e.2),
    hbc, ?_, build_commands_idem dg registry _ _ hbc⟩
  intro d hd
  obtain ⟨e, he, hed⟩ := List.mem_map.mp hd
  obtain ⟨hkt, hkg, hksg, hname, hguild, cs, hcs, hcsinv, hcsnd⟩ :=
    hentries2 e he
  subst hed
  refine ⟨cs, hcs, fun c hc => ⟨(hcsinv c hc).1, (hcsinv c hc).2.1⟩, ?_⟩
  intro s
  constructor
  · exact List.nodup_iff_count_le_one.mp hcsnd s
  · constructor
    · intro hsmem
      have hm := (hmem2 e.1.name e.1.guild_id s).mp
        ⟨e, he, rfl, rfl, cs, hcs, hsmem⟩
      rcases hm with hfalse | ⟨m, hmr, hmg, hms2, hmgu⟩
      · obtain ⟨e0, he0, _⟩ := hfalse
        exact absurd he0 (List.not_mem_nil e0)
      · exact ⟨m, hmr, by rw [hmg, hname], hms2, by rw [hmgu, hguild]⟩
    · rintro ⟨m, hmr, hmg, hms2, hmgu⟩
      have hm := (hmem2 e.2.name e.2.guild_id s).mpr
        (Or.inr ⟨m, hmr, hmg, hms2, hmgu⟩)
      obtain ⟨e2, he2, hn2, hgu2, cs4, hcs4, hsmem4⟩ := hm
      obtain ⟨hkt2, hkg2, hksg2, hname2, hguild2, cs5, hcs5, _, _⟩ :=
        hentries2 e2 he2
      have hkeyeq : e2.1 = e.1 :=
        unique_ext _ _ (hn2.trans hname) (hkt2.trans hkt.symm)
          (hgu2.trans hguild) (hkg2.trans hkg.symm)
          (hksg2.trans hksg.symm)
      have heq : e2 = e := nodup_keys_eq built2 hknd2 e2 e he2 he hkeyeq
      rw [heq] at hcs4
      rw [hcs] at hcs4
      have : cs4 = cs := (Option.some.inj hcs4).symm
      rw [this] at hsmem4
      exact hsmem4

/-- C4 witnessed on a registry with two handlers sharing (g, s) and a third
with (g, t). -/
theorem C4_subgroup_tree_witness :
    ∃ reg2 cmds, build_commands none w4reg = .ok (reg2, cmds) ∧
      (∀ d ∈ cmds, ∃ cs, d.options = some cs ∧
        (∀ c ∈ cs, c.type = 2 ∧ c.description = "HIDDEN") ∧
        ∀ s, (cs.map CommandOption.name).count s ≤ 1 ∧
          (s ∈ cs.map CommandOption.name ↔
            ∃ m ∈ w4reg, m.metadata.group = some d.name ∧
              strVal m.metadata.sub_group = s ∧
              orGuild m.metadata.app.guild_id none = d.guild_id)) ∧
      build_commands none reg2 = .ok (reg2, cmds) :=
  C4_subgroup_tree none w4reg (by decide)

end Crescent
